import Mathlib

/-!
# Verification of `hytek-parser` core utilities and dispatch engine

Shallow embedding of `src/hytek_parser/_utils.py` and
`src/hytek_parser/hy3_parser.py`. Python strings are modelled as `List Char`
(Unicode code points); Python's unbounded `int` is modelled as `Int` (or `Nat`
where the source value is provably non-negative). Python's `str.isdigit` and
`str.strip` are modelled on their ASCII behaviour, which is total on the
fixed-width ASCII records this format consists of. Fallible Python code
(raising exceptions) is modelled with `Except`.
-/

deriving instance DecidableEq for Except

namespace Hytek

/-- Python whitespace characters (ASCII subset), as used by `str.strip()`. -/
def isPySpace (c : Char) : Bool :=
  c = ' ' || c = '\t' || c = '\n' || c = '\r' || c = '\x0b' || c = '\x0c'

/-- Python `s.strip()`: remove leading and trailing whitespace. -/
def pyStrip (s : List Char) : List Char :=
  (((s.dropWhile isPySpace).reverse).dropWhile isPySpace).reverse

/-- Resolve one endpoint of a Python slice `s[a:b]` against a string of
length `n`: negative indices count from the end, and both directions clamp
into `[0, n]`. -/
def resolveIdx (i : Int) (n : Nat) : Nat :=
  if i < 0 then ((n : Int) + i).toNat else min i.toNat n

/-- Python slicing `s[a:b]` (step 1): the characters from resolved index `a`
up to, not including, resolved index `b`.  Total: never raises. -/
def pySlice (s : List Char) (a b : Int) : List Char :=
  (s.take (resolveIdx b s.length)).drop (resolveIdx a s.length)

/-- Embeds `_utils.extract`: `start -= 1; return string[start : start + len_].strip()`. -/
def extract (string : List Char) (start len_ : Int) : List Char :=
  let start' := start - 1
  pyStrip (pySlice string start' (start' + len_))

/-- Embeds `_utils.guess_age_group`. -/
def guess_age_group (swimmer_age : Int) : Int × Int :=
  if swimmer_age ≤ 8 then (0, 8)
  else if 9 ≤ swimmer_age ∧ swimmer_age ≤ 10 then (9, 10)
  else if 11 ≤ swimmer_age ∧ swimmer_age ≤ 12 then (11, 12)
  else if 13 ≤ swimmer_age ∧ swimmer_age ≤ 14 then (13, 14)
  else (0, 109)

/-- Embeds `_utils.get_age_group`. The two sanitization steps reassign the local
variables `age_min` / `age_max` to `None`; here they are rebound. -/
def get_age_group (age_min0 age_max0 : Option Int) (swimmer_age : Int) :
    Int × Int :=
  let age_min := match age_min0 with
    | some m => if m < 0 then none else some m
    | none => none
  let age_max := match age_max0 with
    | some m => if m > 109 then none else some m
    | none => none
  match age_min, age_max with
  | some mn, some mx => (mn, mx)
  | some mn, none =>
    if swimmer_age > mn + 1 then (mn, 109) else (mn, mn + 1)
  | none, some mx =>
    if swimmer_age < mx - 1 then (0, mx) else (mx - 1, mx)
  | none, none => guess_age_group swimmer_age

/-- Python `str.isdigit()` (ASCII behaviour): non-empty and every character
is a decimal digit `'0'..'9'`. -/
def pyIsDigit (s : List Char) : Bool :=
  !s.isEmpty && s.all Char.isDigit

/-- Python `int(s)` on a decimal-digit string: left fold of the digits. -/
def pyInt (s : List Char) : Nat :=
  s.foldl (fun acc c => 10 * acc + (c.toNat - 48)) 0

/-- Embeds `_utils.int_or_none`: `int(value) if value and value.isdigit() else None`.
`value` truthy means: not `None` and non-empty. -/
def int_or_none (value : Option (List Char)) : Option Nat :=
  match value with
  | some s => if s ≠ [] ∧ pyIsDigit s = true then some (pyInt s) else none
  | none => none

/-- Python `range(start, stop, 2)` as the list of indices
`start, start + 2, …` strictly below `stop`; it has `⌈(stop - start)/2⌉`
elements.  The defining recursion
`range2 s n = if s < n then s :: range2 (s + 2) n else []` is proved as
`range2_eq` below. -/
def range2 (start stop : Nat) : List Nat :=
  (List.range ((stop - start + 1) / 2)).map (fun k => start + 2 * k)

/-- Embeds `odd_sum = sum(2 * ord_chars[i] for i in range(1, len(ord_chars), 2))`. -/
def checksumOddSum (ord_chars : List Nat) : Nat :=
  ((range2 1 ord_chars.length).map (fun i => 2 * ord_chars.getD i 0)).sum

/-- Embeds `even_sum = sum(ord_chars[i] for i in range(0, len(ord_chars), 2))`. -/
def checksumEvenSum (ord_chars : List Nat) : Nat :=
  ((range2 0 ord_chars.length).map (fun i => ord_chars.getD i 0)).sum

/-- The checksum arithmetic of `_utils.calculate_checksum` applied to the
line body (the line with its two checksum characters already removed):
`ord_chars`, `sum_val`, `sum2`, and the two extracted digits, in source
order. -/
def checksumDigits (body : List Char) : List Char :=
  let ord_chars := body.map Char.toNat
  let sum_val := checksumOddSum ord_chars + checksumEvenSum ord_chars
  let sum2 := (sum_val / 21) + 205
  let checksum1 := sum2 % 10
  let checksum2 := (sum2 / 10) % 10
  [Nat.digitChar checksum1, Nat.digitChar checksum2]

/-- Embeds `_utils.calculate_checksum`: `line = line[:-2]`, then the checksum
arithmetic, returning the two digit characters `f"{checksum1}{checksum2}"`. -/
def calculate_checksum (line : List Char) : List Char :=
  checksumDigits (pySlice line 0 (-2))

/-- The exceptions of `_exceptions.py` raised by `validate_checksum`. -/
inductive ChecksumException where
  | malformed : ChecksumException
  | mismatch : ChecksumException
  deriving DecidableEq

/-- Embeds `_utils.validate_checksum`. -/
def validate_checksum (line : List Char) : Except ChecksumException Bool :=
  if line.length < 2 then .error .malformed
  else
    let actual_checksum := pySlice line (-2) line.length
    if ¬ pyIsDigit actual_checksum then .error .malformed
    else
      let expected_checksum := calculate_checksum line
      if actual_checksum ≠ expected_checksum then .error .mismatch
      else .ok true

/-- Specification-side restatement of the checksum total (§4.2 of the spec):
over the line with its last two characters dropped, sum the code points at
odd 0-based indices multiplied by 2 and the code points at even indices
unmultiplied, as a single sum over all indices. -/
def checksumSpecTotal (line : List Char) : Nat :=
  let ords := (line.take (line.length - 2)).map Char.toNat
  ∑ i in Finset.range ords.length,
    (if i % 2 = 1 then 2 * ords.getD i 0 else ords.getD i 0)

/-! ### The dispatch engine of `hy3_parser.py` -/

/-- Modelled from the spec: the record handlers of `HY3_LINE_PARSERS`
(module `hytek_parser.hy3`, not under `src/`) are "each a pure function
mapping (line, current aggregate, options) → updated aggregate".  The
options dict is fixed per parse, so a handler is modelled as a function
from the line and the current aggregate (of abstract type `α`, standing
for `ParsedHytekFile`) to the new aggregate. -/
def LineParser (α : Type) := List Char → α → α

/-- The errors `parse_hy3` can raise before reaching a handler:
`IndexError` from `lines[0]` on an empty file, `ValueError("Not a Hytek
file!")`, and the two checksum exceptions propagating out of
`validate_checksum`. -/
inductive ParseErr where
  | indexError : ParseErr
  | notHytek : ParseErr
  | checksum : ChecksumException → ParseErr
  deriving DecidableEq

/-- The `if validate_checksums: validate_checksum(line)` statement at the
top of the parse loop: on success it is a no-op, on failure the exception
propagates. -/
def checkLineStep (validate_checksums : Bool) (line : List Char) :
    Except ParseErr Unit :=
  if validate_checksums then
    match validate_checksum line with
    | .ok _ => .ok ()
    | .error e => .error (.checksum e)
  else .ok ()

/-- The `for line in lines` loop of `parse_hy3`: validate the checksum when
enabled, read `code = line[0:2]`, stop at `"Z0"`, skip codes absent from
the dispatch table, otherwise run the handler and carry the new aggregate. -/
def parseLoop {α : Type} (validate_checksums : Bool)
    (table : List Char → Option (LineParser α)) :
    α → List (List Char) → Except ParseErr α
  | parsed_file, [] => .ok parsed_file
  | parsed_file, line :: rest =>
    match checkLineStep validate_checksums line with
    | .error e => .error e
    | .ok _ =>
      let code := pySlice line 0 2
      if code = ['Z', '0'] then .ok parsed_file
      else
        match table code with
        | none => parseLoop validate_checksums table parsed_file rest
        | some lineParser =>
          parseLoop validate_checksums table (lineParser line parsed_file) rest

/-- Python `s.ljust(width, fill)`. -/
def ljust (s : List Char) (width : Nat) (fill : Char) : List Char :=
  s ++ List.replicate (width - s.length) fill

/-- The synthetic terminator appended when the last line's code is not
`"Z0"`: `terminator_line = "Z0".ljust(128, " ")` followed by
`calculate_checksum(terminator_line + "00")`. -/
def hy3Terminator : List Char :=
  let terminator_line := ljust ['Z', '0'] 128 ' '
  terminator_line ++ calculate_checksum (terminator_line ++ ['0', '0'])

/-- Embeds `hy3_parser.parse_hy3`, on the list of raw lines read from the file
(each is stripped, as in `lines = [line.strip() for line in f]`).  The
aggregate type, its initial value (`ParsedHytekFile()`) and the dispatch
table are abstract parameters (see `LineParser`). -/
def parse_hy3 {α : Type} (validate_checksums : Bool)
    (table : List Char → Option (LineParser α)) (init : α)
    (rawLines : List (List Char)) : Except ParseErr α :=
  let lines := rawLines.map pyStrip
  match lines with
  | [] => .error .indexError
  | first :: rest =>
    if pySlice first 0 2 ≠ ['A', '1'] then .error .notHytek
    else
      let last := (first :: rest).getLastD []
      let lines' :=
        if pySlice last 0 2 ≠ ['Z', '0']
        then (first :: rest) ++ [hy3Terminator]
        else first :: rest
      parseLoop validate_checksums table init lines'

end Hytek

namespace Hytek

/-! ## Basic slice lemmas -/

theorem resolveIdx_zero (n : Nat) : resolveIdx 0 n = 0 := by
  unfold resolveIdx; rw [if_neg (by decide)]; simp

theorem resolveIdx_negTwo (n : Nat) : resolveIdx (-2) n = n - 2 := by
  unfold resolveIdx; rw [if_pos (by decide)]; omega

theorem resolveIdx_len (n : Nat) : resolveIdx (n : Int) n = n := by
  unfold resolveIdx; rw [if_neg (by simp)]; simp

theorem resolveIdx_two (n : Nat) : resolveIdx 2 n = min 2 n := by
  unfold resolveIdx; rw [if_neg (by decide)]; rfl

theorem pySlice_zero_negTwo (s : List Char) :
    pySlice s 0 (-2) = s.take (s.length - 2) := by
  unfold pySlice
  rw [resolveIdx_zero, resolveIdx_negTwo, List.drop_zero]

theorem pySlice_negTwo_len (s : List Char) :
    pySlice s (-2) s.length = s.drop (s.length - 2) := by
  unfold pySlice
  rw [resolveIdx_negTwo, resolveIdx_len, List.take_length]

theorem pySlice_zero_two (s : List Char) :
    pySlice s 0 2 = s.take 2 := by
  unfold pySlice
  rw [resolveIdx_zero, resolveIdx_two, List.drop_zero]
  rcases Nat.le_total 2 s.length with h | h
  · rw [min_eq_left h]
  · rw [min_eq_right h, List.take_length, List.take_of_length_le h]

/-! ## `range2` and the checksum's odd/even index split -/

theorem range2_eq (s n : Nat) :
    range2 s n = if s < n then s :: range2 (s + 2) n else [] := by
  unfold range2
  by_cases h : s < n
  · rw [if_pos h]
    have hm : (n - s + 1) / 2 = ((n - (s + 2) + 1) / 2) + 1 := by omega
    rw [hm, List.range_succ_eq_map]
    simp only [List.map_cons, List.map_map]
    congr 1
    refine List.map_congr_left ?_
    intro a ha
    simp only [Function.comp_apply, Nat.succ_eq_add_one]
    omega
  · rw [if_neg h]
    have h0 : (n - s + 1) / 2 = 0 := by omega
    rw [h0]
    rfl

theorem range2_succ_ge (s n : Nat) (h : n ≤ s) :
    range2 s (n + 1) =
      if s ≤ n ∧ (n - s) % 2 = 0 then range2 s n ++ [n] else range2 s n := by
  rcases Nat.lt_or_ge n s with hlt | hge
  · rw [range2_eq, if_neg (by omega), range2_eq, if_neg (by omega),
      if_neg (by omega)]
  · have hs : s = n := by omega
    subst hs
    rw [range2_eq s (s + 1), if_pos (by omega), range2_eq (s + 2),
      if_neg (by omega), if_pos (by omega), range2_eq s s, if_neg (by omega)]
    simp

theorem range2_succ_aux :
    ∀ (k s n : Nat), n ≤ s + k →
      range2 s (n + 1) =
        if s ≤ n ∧ (n - s) % 2 = 0 then range2 s n ++ [n] else range2 s n := by
  intro k
  induction k with
  | zero =>
    intro s n h
    exact range2_succ_ge s n (by omega)
  | succ k IH =>
    intro s n h
    rcases Nat.lt_or_ge s n with hlt | hge
    · have h1 : range2 s (n + 1) = s :: range2 (s + 2) (n + 1) := by
        rw [range2_eq s (n + 1), if_pos (by omega)]
      have h2 : range2 s n = s :: range2 (s + 2) n := by
        rw [range2_eq s n, if_pos hlt]
      rw [h1, h2, IH (s + 2) n (by omega)]
      by_cases hc : s + 2 ≤ n ∧ (n - (s + 2)) % 2 = 0
      · rw [if_pos hc, if_pos (by omega)]
        simp
      · rw [if_neg hc, if_neg (fun hcon => hc (by omega))]
    · exact range2_succ_ge s n hge

theorem range2_succ (s n : Nat) :
    range2 s (n + 1) =
      if s ≤ n ∧ (n - s) % 2 = 0 then range2 s n ++ [n] else range2 s n :=
  range2_succ_aux n s n (by omega)

theorem mem_range2_aux :
    ∀ (k s n i : Nat), n ≤ s + k → i ∈ range2 s n →
      s ≤ i ∧ i < n ∧ (i - s) % 2 = 0 := by
  intro k
  induction k with
  | zero =>
    intro s n i h hi
    rw [range2_eq, if_neg (by omega)] at hi
    simp at hi
  | succ k IH =>
    intro s n i h hi
    rcases Nat.lt_or_ge s n with hlt | hge
    · rw [range2_eq, if_pos hlt] at hi
      rcases List.mem_cons.mp hi with h1 | h2
      · omega
      · have := IH (s + 2) n i (by omega) h2
        omega
    · rw [range2_eq, if_neg (by omega)] at hi
      simp at hi

theorem mem_range2 (s n i : Nat) (hi : i ∈ range2 s n) :
    s ≤ i ∧ i < n ∧ (i - s) % 2 = 0 :=
  mem_range2_aux n s n i (by omega) hi

theorem sum_range2_split (f : Nat → Nat) :
    ∀ n, ((range2 0 n).map f).sum + ((range2 1 n).map f).sum
      = ((List.range n).map f).sum := by
  intro n
  induction n with
  | zero => simp [range2_eq]
  | succ n IH =>
    rw [List.range_succ, List.map_append, List.sum_append,
      range2_succ 0 n, range2_succ 1 n]
    by_cases hn : n % 2 = 0
    · rw [if_pos (by omega), if_neg (by omega), List.map_append,
        List.sum_append]
      simp only [List.map_cons, List.map_nil, List.sum_cons, List.sum_nil]
      omega
    · rw [if_neg (by omega), if_pos (by omega), List.map_append,
        List.sum_append]
      simp only [List.map_cons, List.map_nil, List.sum_cons, List.sum_nil]
      omega

theorem sum_map_range_eq (f : Nat → Nat) (n : Nat) :
    ((List.range n).map f).sum = ∑ i in Finset.range n, f i := by
  induction n with
  | zero => simp
  | succ n IH =>
    rw [List.range_succ, List.map_append, List.sum_append,
      Finset.sum_range_succ, IH]
    simp

theorem checksum_sums_split (ords : List Nat) :
    checksumOddSum ords + checksumEvenSum ords
      = ∑ i in Finset.range ords.length,
          (if i % 2 = 1 then 2 * ords.getD i 0 else ords.getD i 0) := by
  unfold checksumOddSum checksumEvenSum
  rw [show ((range2 1 ords.length).map fun i => 2 * ords.getD i 0)
      = ((range2 1 ords.length).map
          fun i => if i % 2 = 1 then 2 * ords.getD i 0 else ords.getD i 0) from
    List.map_congr_left (fun i hi => by
      have := mem_range2 1 ords.length i hi
      rw [if_pos (show i % 2 = 1 by omega)])]
  rw [show ((range2 0 ords.length).map fun i => ords.getD i 0)
      = ((range2 0 ords.length).map
          fun i => if i % 2 = 1 then 2 * ords.getD i 0 else ords.getD i 0) from
    List.map_congr_left (fun i hi => by
      have := mem_range2 0 ords.length i hi
      rw [if_neg (show ¬ i % 2 = 1 by omega)])]
  rw [Nat.add_comm, sum_range2_split, sum_map_range_eq]

/-! ## Checksum digit lemmas -/

theorem digitChar_isDigit (d : Nat) (h : d < 10) :
    (Nat.digitChar d).isDigit = true := by
  interval_cases d <;> decide

theorem checksumDigits_length (b : List Char) : (checksumDigits b).length = 2 := by
  simp [checksumDigits]

theorem pyIsDigit_checksumDigits (b : List Char) :
    pyIsDigit (checksumDigits b) = true := by
  simp only [checksumDigits, pyIsDigit, List.isEmpty_cons, Bool.not_false,
    Bool.true_and, List.all_cons, List.all_nil, Bool.and_true]
  rw [digitChar_isDigit _ (Nat.mod_lt _ (by norm_num)),
    digitChar_isDigit _ (Nat.mod_lt _ (by norm_num))]
  rfl

/-- Round-trip: replacing a line's last two characters with its computed
checksum always yields a line accepted by `validate_checksum`. -/
theorem validate_calculate_roundtrip (L : List Char) :
    validate_checksum (L.take (L.length - 2) ++ calculate_checksum L)
      = .ok true := by
  have hcs : calculate_checksum L = checksumDigits (L.take (L.length - 2)) := by
    rw [calculate_checksum, pySlice_zero_negTwo]
  rw [hcs]
  set body := L.take (L.length - 2) with hbody
  set cs := checksumDigits body with hcsdef
  have hlen2 : cs.length = 2 := checksumDigits_length body
  have hlen : (body ++ cs).length = body.length + 2 := by
    rw [List.length_append, hlen2]
  have hsub : (body ++ cs).length - 2 = body.length := by omega
  have hactual : pySlice (body ++ cs) (-2) ((body ++ cs).length : Int) = cs := by
    rw [pySlice_negTwo_len, hsub, List.drop_left]
  have hexp : calculate_checksum (body ++ cs) = cs := by
    rw [calculate_checksum, pySlice_zero_negTwo, hsub, List.take_left, hcsdef]
  have hdig : pyIsDigit cs = true := pyIsDigit_checksumDigits body
  unfold validate_checksum
  rw [if_neg (show ¬ (body ++ cs).length < 2 by omega)]
  rw [if_neg (show ¬¬ pyIsDigit (pySlice (body ++ cs) (-2)
    ((body ++ cs).length : Int)) = true by rw [hactual, hdig]; simp)]
  rw [if_neg (show ¬ pySlice (body ++ cs) (-2) ((body ++ cs).length : Int)
    ≠ calculate_checksum (body ++ cs) by rw [hactual, hexp]; simp)]

/-! ## Claim theorems: checksum engine -/

/-- C1: `calculate_checksum(line)` drops the last two characters, sums the
code points at odd 0-based indices multiplied by 2 plus those at even
indices unmultiplied, computes `reduced = total / 21 + 205`, and returns
the two digit characters `reduced % 10` then `reduced / 10 % 10`,
least-significant digit first. -/
theorem calculate_checksum_matches_spec (line : List Char) :
    calculate_checksum line =
      [Nat.digitChar ((checksumSpecTotal line / 21 + 205) % 10),
       Nat.digitChar ((checksumSpecTotal line / 21 + 205) / 10 % 10)] := by
  simp only [calculate_checksum, checksumDigits, checksumSpecTotal,
    pySlice_zero_negTwo, checksum_sums_split]

/-- C2: for every line `L`, replacing its last two characters with
`calculate_checksum(L)` yields a line on which `validate_checksum`
succeeds. -/
theorem checksum_roundtrip (L : List Char) :
    validate_checksum (pySlice L 0 (-2) ++ calculate_checksum L) = .ok true := by
  rw [pySlice_zero_negTwo]
  exact validate_calculate_roundtrip L

theorem pyIsDigit_eq_true_iff (s : List Char) :
    pyIsDigit s = true ↔ s ≠ [] ∧ ∀ c ∈ s, c.isDigit = true := by
  cases s with
  | nil => simp [pyIsDigit]
  | cons c t => simp [pyIsDigit, List.all_eq_true]

/-- C3: `validate_checksum` raises `MalformedChecksum` exactly when the
line is shorter than 2 characters or some of its last two characters is
not a decimal digit; raises `ChecksumMismatch` exactly when that check
passes but the computed checksum differs from the trailing two characters;
and otherwise returns `true`. -/
theorem validate_checksum_error_cases (line : List Char) :
    (validate_checksum line = .error .malformed ↔
      line.length < 2 ∨ ∃ c ∈ line.drop (line.length - 2), c.isDigit = false) ∧
    (validate_checksum line = .error .mismatch ↔
      2 ≤ line.length ∧ (∀ c ∈ line.drop (line.length - 2), c.isDigit = true) ∧
      line.drop (line.length - 2) ≠ calculate_checksum line) ∧
    (validate_checksum line = .ok true ↔
      2 ≤ line.length ∧ (∀ c ∈ line.drop (line.length - 2), c.isDigit = true) ∧
      line.drop (line.length - 2) = calculate_checksum line) := by
  simp only [validate_checksum, pySlice_negTwo_len]
  set actual := line.drop (line.length - 2) with hact
  by_cases h1 : line.length < 2
  · rw [if_pos h1]
    refine ⟨⟨fun _ => Or.inl h1, fun _ => rfl⟩, ?_, ?_⟩
    · constructor
      · intro h; exact absurd h (by simp)
      · rintro ⟨h2, -, -⟩; omega
    · constructor
      · intro h; exact absurd h (by simp)
      · rintro ⟨h2, -, -⟩; omega
  · rw [if_neg h1]
    have hne : actual ≠ [] := by
      rw [hact]
      have hlen : (line.drop (line.length - 2)).length = 2 := by
        rw [List.length_drop]; omega
      intro hcon
      rw [hcon] at hlen
      simp at hlen
    by_cases h2 : pyIsDigit actual = true
    · rw [if_neg (not_not_intro h2)]
      have hall : ∀ c ∈ actual, c.isDigit = true :=
        ((pyIsDigit_eq_true_iff actual).mp h2).2
      by_cases h3 : actual ≠ calculate_checksum line
      · rw [if_pos h3]
        refine ⟨?_, ?_, ?_⟩
        · constructor
          · intro h; exact absurd h (by simp)
          · rintro (hc | ⟨c, hc, hcd⟩)
            · omega
            · rw [hall c hc] at hcd; simp at hcd
        · exact ⟨fun _ => ⟨by omega, hall, h3⟩, fun _ => rfl⟩
        · constructor
          · intro h; exact absurd h (by simp)
          · rintro ⟨-, -, heq⟩; exact absurd heq h3
      · rw [if_neg h3]
        push_neg at h3
        refine ⟨?_, ?_, ?_⟩
        · constructor
          · intro h; exact absurd h (by simp)
          · rintro (hc | ⟨c, hc, hcd⟩)
            · omega
            · rw [hall c hc] at hcd; simp at hcd
        · constructor
          · intro h; exact absurd h (by simp)
          · rintro ⟨-, -, hne2⟩; exact absurd h3 hne2
        · exact ⟨fun _ => ⟨by omega, hall, h3⟩, fun _ => rfl⟩
    · rw [if_pos h2]
      have hex : ∃ c ∈ actual, c.isDigit = false := by
        by_contra hno
        push_neg at hno
        exact h2 ((pyIsDigit_eq_true_iff actual).mpr
          ⟨hne, fun c hcm => by have := hno c hcm; simpa using this⟩)
      refine ⟨⟨fun _ => Or.inr hex, fun _ => rfl⟩, ?_, ?_⟩
      · constructor
        · intro h; exact absurd h (by simp)
        · rintro ⟨-, hall, -⟩
          obtain ⟨c, hc, hcd⟩ := hex
          rw [hall c hc] at hcd; simp at hcd
      · constructor
        · intro h; exact absurd h (by simp)
        · rintro ⟨-, hall, -⟩
          obtain ⟨c, hc, hcd⟩ := hex
          rw [hall c hc] at hcd; simp at hcd

/-! ## Claim theorems: safe coercion (`int_or_none`) -/

theorem pyInt_foldl (s : List Char) : ∀ acc : Nat,
    s.foldl (fun a c => 10 * a + (c.toNat - 48)) acc
      = acc * 10 ^ s.length
        + Nat.ofDigits 10 ((s.map (fun c => c.toNat - 48)).reverse) := by
  induction s with
  | nil =>
    intro acc
    simp [Nat.ofDigits_nil]
  | cons c t IH =>
    intro acc
    simp only [List.foldl_cons, List.map_cons, List.reverse_cons,
      List.length_cons]
    rw [IH, Nat.ofDigits_append, Nat.ofDigits_cons, Nat.ofDigits_nil]
    simp only [List.length_reverse, List.length_map]
    ring

theorem pyInt_eq_ofDigits (s : List Char) :
    pyInt s = Nat.ofDigits 10 ((s.map (fun c => c.toNat - 48)).reverse) := by
  unfold pyInt
  rw [pyInt_foldl]
  simp

/-- C7: `int_or_none(raw)` returns the parsed integer exactly when `raw`
is a non-empty all-decimal-digit string, and the absent value otherwise;
it is total (never raises). -/
theorem int_or_none_digits (raw : Option (List Char)) :
    (∀ s, raw = some s → s ≠ [] → (∀ c ∈ s, c.isDigit = true) →
      int_or_none raw
        = some (Nat.ofDigits 10 ((s.map (fun c => c.toNat - 48)).reverse))) ∧
    (int_or_none raw = none ↔
      raw = none ∨ ∃ s, raw = some s ∧ (s = [] ∨ ∃ c ∈ s, c.isDigit = false)) := by
  constructor
  · rintro s rfl hne hall
    simp only [int_or_none]
    rw [if_pos ⟨hne, (pyIsDigit_eq_true_iff s).mpr ⟨hne, hall⟩⟩,
      pyInt_eq_ofDigits]
  · cases raw with
    | none => simp [int_or_none]
    | some s =>
      simp only [int_or_none]
      by_cases hc : s ≠ [] ∧ pyIsDigit s = true
      · rw [if_pos hc]
        have hall := ((pyIsDigit_eq_true_iff s).mp hc.2).2
        constructor
        · intro h; exact absurd h (by simp)
        · rintro (h | ⟨s', hs', h⟩)
          · exact absurd h (by simp)
          · obtain rfl := Option.some.inj hs'
            rcases h with h | ⟨c, hcmem, hcd⟩
            · exact absurd h hc.1
            · rw [hall c hcmem] at hcd; simp at hcd
      · rw [if_neg hc]
        refine ⟨fun _ => ?_, fun _ => rfl⟩
        right
        refine ⟨s, rfl, ?_⟩
        by_cases hs0 : s = []
        · exact Or.inl hs0
        · right
          have h2 : ¬ pyIsDigit s = true := fun hd => hc ⟨hs0, hd⟩
          by_contra hno
          push_neg at hno
          exact h2 ((pyIsDigit_eq_true_iff s).mpr
            ⟨hs0, fun c hcm => by have := hno c hcm; simpa using this⟩)

/-- Witness for C7 at concrete inputs: `"120"` parses to `120`, while
`None`, `""` and `"12a"` are absent. -/
theorem int_or_none_digits_witness :
    int_or_none (some ['1', '2', '0']) = some 120 ∧
    int_or_none none = none ∧
    int_or_none (some []) = none ∧
    int_or_none (some ['1', '2', 'a']) = none := by
  refine ⟨?_, ?_, ?_, ?_⟩
  · rw [(int_or_none_digits (some ['1', '2', '0'])).1 ['1', '2', '0'] rfl
      (by decide) (by decide)]
    decide
  · exact (int_or_none_digits none).2.mpr (Or.inl rfl)
  · exact (int_or_none_digits (some [])).2.mpr
      (Or.inr ⟨[], rfl, Or.inl rfl⟩)
  · exact (int_or_none_digits (some ['1', '2', 'a'])).2.mpr
      (Or.inr ⟨['1', '2', 'a'], rfl, Or.inr ⟨'a', by decide, by decide⟩⟩)

/-! ## Claim theorems: field extractor -/

theorem list_slice_take_drop (s : List Char) (a l : Nat) :
    (s.take (min (a + l) s.length)).drop (min a s.length)
      = (s.drop a).take l := by
  rcases Nat.le_total a s.length with h | h
  · rw [min_eq_left h]
    rcases Nat.le_total (a + l) s.length with h2 | h2
    · rw [min_eq_left h2, List.drop_take, Nat.add_sub_cancel_left]
    · rw [min_eq_right h2, List.take_length]
      symm
      apply List.take_of_length_le
      rw [List.length_drop]
      omega
  · rw [min_eq_right h, min_eq_right (by omega), List.take_length,
      List.drop_length, List.drop_eq_nil_of_le h, List.take_nil]

theorem pySlice_nonneg (s : List Char) (a l : Int) (ha : 0 ≤ a) (hl : 0 ≤ l) :
    pySlice s a (a + l) = (s.drop a.toNat).take l.toNat := by
  unfold pySlice resolveIdx
  rw [if_neg (by omega), if_neg (by omega)]
  have h1 : (a + l).toNat = a.toNat + l.toNat := by omega
  rw [h1, list_slice_take_drop]

theorem pyStrip_nil : pyStrip [] = [] := rfl

/-- C4: `extract(line, start, len)` is total for all `start, len ≥ 0`; when
`start` exceeds the line's length it returns the empty string; and for any
1-based `start` it returns the at-most-`len` characters from offset
`start - 1`, trimmed — a truncated read, never an error. -/
theorem extract_total_truncated (s : List Char) (start len_ : Int)
    (hs : 0 ≤ start) (hl : 0 ≤ len_) :
    ((s.length : Int) < start → extract s start len_ = []) ∧
    (1 ≤ start → extract s start len_
      = pyStrip ((s.drop (start - 1).toNat).take len_.toNat)) := by
  have hmain : 1 ≤ start → extract s start len_
      = pyStrip ((s.drop (start - 1).toNat).take len_.toNat) := by
    intro h1
    simp only [extract]
    rw [pySlice_nonneg s (start - 1) len_ (by omega) hl]
  refine ⟨?_, hmain⟩
  intro hgt
  rw [hmain (by omega)]
  have hdrop : s.drop (start - 1).toNat = [] :=
    List.drop_eq_nil_of_le (by omega)
  rw [hdrop, List.take_nil, pyStrip_nil]

/-- Witness for C4 at concrete inputs: reading past the end returns the
remainder trimmed, and a start beyond the line returns the empty string. -/
theorem extract_total_truncated_witness :
    extract ['a', 'b'] 5 3 = [] ∧ extract ['a', ' ', 'b'] 2 7 = ['b'] := by
  constructor
  · exact (extract_total_truncated ['a', 'b'] 5 3 (by decide) (by decide)).1
      (by decide)
  · rw [(extract_total_truncated ['a', ' ', 'b'] 2 7 (by decide)
      (by decide)).2 (by decide)]
    decide

/-! ## Claim theorems: age-group inference -/

/-- C5: with neither bound declared, `get_age_group` delegates to
`guess_age_group`, whose buckets are `≤ 8 → (0,8)`, `9–10 → (9,10)`,
`11–12 → (11,12)`, `13–14 → (13,14)`, anything else `(0,109)`. -/
theorem age_group_guess_buckets (a : Int) :
    get_age_group none none a = guess_age_group a ∧
    (a ≤ 8 → guess_age_group a = (0, 8)) ∧
    (9 ≤ a ∧ a ≤ 10 → guess_age_group a = (9, 10)) ∧
    (11 ≤ a ∧ a ≤ 12 → guess_age_group a = (11, 12)) ∧
    (13 ≤ a ∧ a ≤ 14 → guess_age_group a = (13, 14)) ∧
    (¬ a ≤ 8 ∧ ¬ (9 ≤ a ∧ a ≤ 10) ∧ ¬ (11 ≤ a ∧ a ≤ 12) ∧
      ¬ (13 ≤ a ∧ a ≤ 14) → guess_age_group a = (0, 109)) := by
  refine ⟨rfl, ?_, ?_, ?_, ?_, ?_⟩ <;>
    (intro h; unfold guess_age_group; split_ifs <;>
      first | rfl | (exfalso; omega))

/-- Witness for C5 at one concrete age per bucket. -/
theorem age_group_guess_buckets_witness :
    guess_age_group 7 = (0, 8) ∧ guess_age_group 9 = (9, 10) ∧
    guess_age_group 11 = (11, 12) ∧ guess_age_group 13 = (13, 14) ∧
    guess_age_group 15 = (0, 109) :=
  ⟨(age_group_guess_buckets 7).2.1 (by decide),
   (age_group_guess_buckets 9).2.2.1 (by decide),
   (age_group_guess_buckets 11).2.2.2.1 (by decide),
   (age_group_guess_buckets 13).2.2.2.2.1 (by decide),
   (age_group_guess_buckets 15).2.2.2.2.2 (by decide)⟩

/-- C6: `get_age_group` treats a declared `min < 0` and a declared
`max > 109` as absent, and with only `max` present returns `(0, max)` when
`swimmer_age < max - 1` and `(max - 1, max)` otherwise. -/
theorem age_group_max_only (mn mx a : Int) :
    (mn < 0 → ∀ omx, get_age_group (some mn) omx a
      = get_age_group none omx a) ∧
    (109 < mx → ∀ omn, get_age_group omn (some mx) a
      = get_age_group omn none a) ∧
    (mx ≤ 109 → get_age_group none (some mx) a
      = if a < mx - 1 then (0, mx) else (mx - 1, mx)) := by
  refine ⟨?_, ?_, ?_⟩
  · intro h omx
    simp [get_age_group, if_pos h]
  · intro h omn
    simp [get_age_group, if_pos h]
  · intro h
    simp [get_age_group, show ¬ (109 : Int) < mx by omega]

/-- Witness for C6: the spec's concrete bracket examples. -/
theorem age_group_max_only_witness :
    get_age_group none (some 20) 15 = (0, 20) ∧
    get_age_group none (some 20) 19 = (19, 20) ∧
    get_age_group (some (-1)) (some 12) 11
      = get_age_group none (some 12) 11 := by
  refine ⟨?_, ?_, ?_⟩
  · rw [(age_group_max_only 0 20 15).2.2 (by decide)]
    decide
  · rw [(age_group_max_only 0 20 19).2.2 (by decide)]
    decide
  · exact (age_group_max_only (-1) 12 11).1 (by decide) (some 12)

/-! ## Dispatch engine lemmas -/

theorem checkLineStep_ok (v : Bool) (l : List Char)
    (h : v = true → validate_checksum l = .ok true) :
    checkLineStep v l = .ok () := by
  cases v with
  | false => rfl
  | true => simp [checkLineStep, h rfl]

theorem getLastD_append_right {β : Type} (a b : List β) (hb : b ≠ []) (d : β) :
    (a ++ b).getLastD d = b.getLastD d := by
  induction a generalizing d with
  | nil => rfl
  | cons x a IH =>
    rw [List.cons_append, List.getLastD_cons, IH x]
    cases b with
    | nil => exact absurd rfl hb
    | cons y b' => rw [List.getLastD_cons, List.getLastD_cons]

/-- Skipping-an-unknown-line lemma for the parse loop: a line whose code is
not `"Z0"` and has no handler in the dispatch table is skipped, leaving the
final result unchanged. -/
theorem parseLoop_skip {α : Type} (v : Bool)
    (table : List Char → Option (LineParser α)) (l : List Char)
    (ys : List (List Char))
    (htab : table (pySlice l 0 2) = none)
    (hnz : pySlice l 0 2 ≠ ['Z', '0'])
    (hstep : checkLineStep v l = .ok ()) :
    ∀ (xs : List (List Char)) (st : α),
      parseLoop v table st (xs ++ l :: ys) = parseLoop v table st (xs ++ ys) := by
  intro xs
  induction xs with
  | nil =>
    intro st
    simp only [List.nil_append]
    simp only [parseLoop, hstep, htab, if_neg hnz]
  | cons x xs IH =>
    intro st
    simp only [List.cons_append]
    cases hx : checkLineStep v x with
    | error e => simp only [parseLoop, hx]
    | ok u =>
      simp only [parseLoop, hx]
      by_cases hz : pySlice x 0 2 = ['Z', '0']
      · rw [if_pos hz, if_pos hz]
      · rw [if_neg hz, if_neg hz]
        cases htx : table (pySlice x 0 2) with
        | none => simp only [htx]; exact IH st
        | some p => simp only [htx]; exact IH (p x st)

/-- The parse loop stops at the first `"Z0"` line, so any two validating
terminator lines are interchangeable. -/
theorem parseLoop_stop_pair {α : Type} (v : Bool)
    (table : List Char → Option (LineParser α)) (z1 z2 : List Char)
    (h1 : pySlice z1 0 2 = ['Z', '0']) (h2 : pySlice z2 0 2 = ['Z', '0'])
    (s1 : checkLineStep v z1 = .ok ()) (s2 : checkLineStep v z2 = .ok ()) :
    ∀ (xs : List (List Char)) (st : α),
      parseLoop v table st (xs ++ [z1]) = parseLoop v table st (xs ++ [z2]) := by
  intro xs
  induction xs with
  | nil =>
    intro st
    simp only [List.nil_append]
    simp only [parseLoop, s1, s2, if_pos h1, if_pos h2]
  | cons x xs IH =>
    intro st
    simp only [List.cons_append]
    cases hx : checkLineStep v x with
    | error e => simp only [parseLoop, hx]
    | ok u =>
      simp only [parseLoop, hx]
      by_cases hz : pySlice x 0 2 = ['Z', '0']
      · rw [if_pos hz, if_pos hz]
      · rw [if_neg hz, if_neg hz]
        cases htx : table (pySlice x 0 2) with
        | none => simp only [htx]; exact IH st
        | some p => simp only [htx]; exact IH (p x st)

theorem parse_hy3_cons {α : Type} (v : Bool)
    (table : List Char → Option (LineParser α)) (init : α)
    (x : List Char) (t : List (List Char)) :
    parse_hy3 v table init (x :: t) =
      if pySlice (pyStrip x) 0 2 ≠ ['A', '1'] then .error .notHytek
      else
        parseLoop v table init
          (if pySlice ((pyStrip x :: t.map pyStrip).getLastD []) 0 2 ≠ ['Z', '0']
           then (pyStrip x :: t.map pyStrip) ++ [hy3Terminator]
           else pyStrip x :: t.map pyStrip) := by
  simp only [parse_hy3, List.map_cons]

theorem ljust_Z0_length : (ljust ['Z', '0'] 128 ' ').length = 128 := by
  simp [ljust]

theorem hy3Terminator_valid : validate_checksum hy3Terminator = .ok true := by
  have h : hy3Terminator
      = (ljust ['Z', '0'] 128 ' ' ++ ['0', '0']).take
          ((ljust ['Z', '0'] 128 ' ' ++ ['0', '0']).length - 2)
        ++ calculate_checksum (ljust ['Z', '0'] 128 ' ' ++ ['0', '0']) := by
    have hsub : (ljust ['Z', '0'] 128 ' ' ++ ['0', '0']).length - 2
        = (ljust ['Z', '0'] 128 ' ').length := by
      rw [List.length_append, ljust_Z0_length]
      rfl
    rw [hsub, List.take_left]
    rfl
  rw [h]
  exact validate_calculate_roundtrip _

theorem hy3Terminator_code : pySlice hy3Terminator 0 2 = ['Z', '0'] := by
  rw [pySlice_zero_two]
  rfl

theorem hy3Terminator_length : hy3Terminator.length = 130 := by
  have h : hy3Terminator = ljust ['Z', '0'] 128 ' '
      ++ calculate_checksum (ljust ['Z', '0'] 128 ' ' ++ ['0', '0']) := rfl
  rw [h, List.length_append, ljust_Z0_length, calculate_checksum,
    checksumDigits_length]

/-! ## Claim theorems: dispatch engine -/

/-- C8: when the last line's code is not the terminator code, `parse_hy3`
appends a synthetic terminator — the code padded to 128 characters plus a
two-digit checksum accepted by `validate_checksum` — and returns the same
aggregate as parsing the same input extended with any explicit
(validating) terminator line. -/
theorem parse_hy3_synthesizes_terminator {α : Type} (v : Bool)
    (table : List Char → Option (LineParser α)) (init : α)
    (rawLines : List (List Char)) (zline : List Char)
    (hne : rawLines ≠ [])
    (hlast : pySlice ((rawLines.map pyStrip).getLastD []) 0 2 ≠ ['Z', '0'])
    (hz : pySlice (pyStrip zline) 0 2 = ['Z', '0'])
    (hzval : v = true → validate_checksum (pyStrip zline) = .ok true) :
    validate_checksum hy3Terminator = .ok true ∧
    pySlice hy3Terminator 0 2 = ['Z', '0'] ∧
    hy3Terminator.length = 130 ∧
    parse_hy3 v table init rawLines
      = parse_hy3 v table init (rawLines ++ [zline]) := by
  refine ⟨hy3Terminator_valid, hy3Terminator_code, hy3Terminator_length, ?_⟩
  obtain ⟨x, t, rfl⟩ : ∃ x t, rawLines = x :: t := by
    cases rawLines with
    | nil => exact absurd rfl hne
    | cons a b => exact ⟨a, b, rfl⟩
  rw [List.cons_append, parse_hy3_cons, parse_hy3_cons]
  by_cases hA : pySlice (pyStrip x) 0 2 = ['A', '1']
  case neg =>
    rw [if_pos hA, if_pos hA]
  case pos =>
    rw [if_neg (not_not_intro hA), if_neg (not_not_intro hA)]
    simp only [List.map_cons] at hlast
    have hmap : (t ++ [zline]).map pyStrip
        = t.map pyStrip ++ [pyStrip zline] := by simp
    rw [hmap]
    have hlastR : (pyStrip x :: (t.map pyStrip ++ [pyStrip zline])).getLastD []
        = pyStrip zline := by
      rw [List.getLastD_cons, getLastD_append_right _ _ (by simp) _,
        List.getLastD_cons]
      rfl
    rw [if_pos hlast, hlastR, if_neg (not_not_intro hz)]
    have hassoc : pyStrip x :: (t.map pyStrip ++ [pyStrip zline])
        = (pyStrip x :: t.map pyStrip) ++ [pyStrip zline] := by simp
    rw [hassoc]
    exact parseLoop_stop_pair v table hy3Terminator (pyStrip zline)
      hy3Terminator_code hz
      (checkLineStep_ok v _ (fun _ => hy3Terminator_valid))
      (checkLineStep_ok v _ hzval)
      (pyStrip x :: t.map pyStrip) init

/-- Witness for C8: a header-only file parses identically with and without
an explicit terminator line. -/
theorem parse_hy3_synthesizes_terminator_witness :
    parse_hy3 false (fun _ => (none : Option (LineParser Nat))) 0 [['A', '1']]
      = parse_hy3 false (fun _ => none) 0 [['A', '1'], ['Z', '0']] :=
  (parse_hy3_synthesizes_terminator false (fun _ => none) 0 [['A', '1']]
    ['Z', '0'] (by decide) (by decide) (by decide)
    (fun h => absurd h (by decide))).2.2.2

/-- C9: a line whose two-character code has no entry in the dispatch table
is skipped without aborting: the parse of an input containing it mid-file
equals the parse of the same input with that line removed. -/
theorem parse_hy3_skips_unknown {α : Type} (v : Bool)
    (table : List Char → Option (LineParser α)) (init : α)
    (xs : List (List Char)) (l : List Char) (ys : List (List Char))
    (hxs : xs ≠ []) (hys : ys ≠ [])
    (htab : table (pySlice (pyStrip l) 0 2) = none)
    (hnz : pySlice (pyStrip l) 0 2 ≠ ['Z', '0'])
    (hval : v = true → validate_checksum (pyStrip l) = .ok true) :
    parse_hy3 v table init (xs ++ l :: ys) = parse_hy3 v table init (xs ++ ys) := by
  obtain ⟨x, t, rfl⟩ : ∃ x t, xs = x :: t := by
    cases xs with
    | nil => exact absurd rfl hxs
    | cons a b => exact ⟨a, b, rfl⟩
  obtain ⟨y, u, rfl⟩ : ∃ y u, ys = y :: u := by
    cases ys with
    | nil => exact absurd rfl hys
    | cons a b => exact ⟨a, b, rfl⟩
  rw [List.cons_append, List.cons_append, parse_hy3_cons, parse_hy3_cons]
  by_cases hA : pySlice (pyStrip x) 0 2 = ['A', '1']
  case neg =>
    rw [if_pos hA, if_pos hA]
  case pos =>
    rw [if_neg (not_not_intro hA), if_neg (not_not_intro hA)]
    have hm1 : (t ++ l :: y :: u).map pyStrip
        = t.map pyStrip ++ pyStrip l :: pyStrip y :: u.map pyStrip := by simp
    have hm2 : (t ++ y :: u).map pyStrip
        = t.map pyStrip ++ pyStrip y :: u.map pyStrip := by simp
    rw [hm1, hm2]
    have hlast1 : (pyStrip x :: (t.map pyStrip
          ++ pyStrip l :: pyStrip y :: u.map pyStrip)).getLastD []
        = (u.map pyStrip).getLastD (pyStrip y) := by
      rw [List.getLastD_cons, getLastD_append_right _ _ (by simp) _,
        List.getLastD_cons, List.getLastD_cons]
    have hlast2 : (pyStrip x :: (t.map pyStrip
          ++ pyStrip y :: u.map pyStrip)).getLastD []
        = (u.map pyStrip).getLastD (pyStrip y) := by
      rw [List.getLastD_cons, getLastD_append_right _ _ (by simp) _,
        List.getLastD_cons]
    rw [hlast1, hlast2]
    by_cases hl : pySlice ((u.map pyStrip).getLastD (pyStrip y)) 0 2 = ['Z', '0']
    · rw [if_neg (not_not_intro hl), if_neg (not_not_intro hl)]
      have e1 : pyStrip x :: (t.map pyStrip
            ++ pyStrip l :: pyStrip y :: u.map pyStrip)
          = (pyStrip x :: t.map pyStrip)
            ++ pyStrip l :: (pyStrip y :: u.map pyStrip) := by simp
      have e2 : pyStrip x :: (t.map pyStrip ++ pyStrip y :: u.map pyStrip)
          = (pyStrip x :: t.map pyStrip) ++ pyStrip y :: u.map pyStrip := by simp
      rw [e1, e2]
      exact parseLoop_skip v table (pyStrip l) _ htab hnz
        (checkLineStep_ok v _ hval) _ init
    · rw [if_pos hl, if_pos hl]
      have e1 : (pyStrip x :: (t.map pyStrip
            ++ pyStrip l :: pyStrip y :: u.map pyStrip)) ++ [hy3Terminator]
          = (pyStrip x :: t.map pyStrip)
            ++ pyStrip l :: ((pyStrip y :: u.map pyStrip) ++ [hy3Terminator]) := by
        simp
      have e2 : (pyStrip x :: (t.map pyStrip ++ pyStrip y :: u.map pyStrip))
            ++ [hy3Terminator]
          = (pyStrip x :: t.map pyStrip)
            ++ ((pyStrip y :: u.map pyStrip) ++ [hy3Terminator]) := by simp
      rw [e1, e2]
      exact parseLoop_skip v table (pyStrip l) _ htab hnz
        (checkLineStep_ok v _ hval) _ init

/-- Witness for C9: an unknown code `"Q9"` between the header and another
line does not change the parse result. -/
theorem parse_hy3_skips_unknown_witness :
    parse_hy3 false (fun _ => (none : Option (LineParser Nat))) 0
        [['A', '1'], ['Q', '9'], ['B', '1']]
      = parse_hy3 false (fun _ => none) 0 [['A', '1'], ['B', '1']] :=
  parse_hy3_skips_unknown false (fun _ => none) 0 [['A', '1']] ['Q', '9']
    [['B', '1']] (by decide) (by decide) rfl (by decide)
    (fun h => absurd h (by decide))

/-- C10: on an empty input `parse_hy3` fails with the out-of-range indexing
error from reading the first line, not with the documented
"not a Hytek file" format error. -/
theorem parse_hy3_empty_input {α : Type} (v : Bool)
    (table : List Char → Option (LineParser α)) (init : α) :
    parse_hy3 v table init [] = .error .indexError ∧
    (Except.error ParseErr.indexError : Except ParseErr α)
      ≠ .error .notHytek :=
  ⟨rfl, by simp⟩

end Hytek
